import Mathlib

/-!
Verification development for the Catalogos-Pdf repository: a shallow
embedding of the offline service worker (public/sw.js), the FlipBook
page-render cache (FlipBook.tsx), and the PDF document hook
(src/app/hooks/usePDFPages.ts), together with theorems settling the
specification claims about them.
-/

/-! ## Service worker (public/sw.js) -/

namespace SW

/-- Response types distinguished by the service worker
(response.type in sw.js). -/
inductive RespType
  | basic
  | cors
  | opaqueResp
  | errorResp
  deriving DecidableEq, Repr

/-- A network/cache response: status code, type, and an abstract body
identifier standing for the payload bytes. -/
structure Response where
  status : Nat
  rtype : RespType
  body : Nat
  deriving DecidableEq, Repr

/-- A request as inspected by the fetch handler in sw.js: method,
whether its URL is same-origin, the URL pathname and querystring, and
whether request.mode is navigate. -/
structure Request where
  method : String
  sameOrigin : Bool
  pathname : String
  search : String
  isNavigate : Bool
  deriving DecidableEq, Repr

/-- JS String.prototype.startsWith, stated on the character lists of
the strings (definitionally equal to String.startsWith on literals,
and friendly to kernel evaluation). -/
def strStartsWith (s p : String) : Bool := p.data.isPrefixOf s.data

/-- JS String.prototype.endsWith, stated on the character lists. -/
def strEndsWith (s p : String) : Bool := p.data.isSuffixOf s.data

/-- withScope from sw.js: prepend the registration scope path,
inserting a slash when the path does not start with one. -/
def withScope (scope path : String) : String :=
  scope ++ (if strStartsWith path "/" then "" else "/") ++ path

/-- The Cache API bucket, modelled as an association list from full URL
key (pathname plus querystring) to stored response, in insertion order. -/
abbrev CacheStore := List (String × Response)

/-- cache.match with its default options: an exact match on the full
URL key, including the querystring. -/
def cacheMatch (cache : CacheStore) (key : String) : Option Response :=
  (List.find? (fun e => e.1 = key) cache).map Prod.snd

/-- cache.put: store a response under a key, replacing any previous
entry for that key. -/
def cachePut (cache : CacheStore) (key : String) (r : Response) : CacheStore :=
  List.filter (fun e => e.1 ≠ key) cache ++ [(key, r)]

/-- Outcome of one network fetch: a response, or a network failure
(a rejected fetch promise). -/
abbrev FetchOutcome := Except Unit Response

/-- Result of running one respondWith handler: the response produced
for the page (or a failed request), the cache contents afterwards, and
whether a network fetch was issued while handling the request. -/
structure HandlerResult where
  response : Except Unit Response
  cache : CacheStore
  fetched : Bool
  deriving Repr

/-- The navigation branch of the fetch handler in sw.js (lines 60-81):
look up the shell document in the cache; if present return it at once;
otherwise fetch the shell with cache no-store, store a clone on a
status-200 response, and return the network response; a network failure
rechecks the (necessarily absent) cached copy and then rethrows. -/
def handleNavigation (scope : String) (cache : CacheStore)
    (network : FetchOutcome) : HandlerResult :=
  let indexUrl := withScope scope "/index.html"
  let cachedIndex := cacheMatch cache indexUrl
  match cachedIndex with
  | some r => ⟨.ok r, cache, false⟩
  | none =>
    match network with
    | .ok response =>
      let cache' := if response.status = 200
        then cachePut cache indexUrl response else cache
      ⟨.ok response, cache', true⟩
    | .error e =>
      match cachedIndex with
      | some r => ⟨.ok r, cache, true⟩
      | none => ⟨.error e, cache, true⟩

/-- The static-file extensions listed in the isStaticAsset test of
sw.js, in source order. -/
def staticExtensions : List String :=
  [".css", ".js", ".mjs", ".png", ".jpg", ".jpeg", ".webp", ".svg",
   ".gif", ".ico", ".json", ".woff2", ".woff", ".ttf"]

/-- isStaticAsset from sw.js (lines 88-106): scope root, shell HTML,
assets or icons path, or one of the known static extensions. -/
def isStaticAsset (scope pathname : String) : Bool :=
  pathname = withScope scope "/" ||
  pathname = withScope scope "/index.html" ||
  strStartsWith pathname (withScope scope "/assets/") ||
  strStartsWith pathname (withScope scope "/icons/") ||
  staticExtensions.any (fun ext => strEndsWith pathname ext)

/-- The cache key of a request: its full URL path including the
querystring (the default cache.match key). -/
def requestKey (req : Request) : String := req.pathname ++ req.search

/-- The static-asset branch of the fetch handler in sw.js
(lines 110-128): return a cached match at once when present; otherwise
fetch from the network, store a clone exactly when the response has
status 200 and type basic or cors, and return it; network failures are
rethrown. -/
def handleStaticAsset (cache : CacheStore) (req : Request)
    (network : FetchOutcome) : HandlerResult :=
  match cacheMatch cache (requestKey req) with
  | some cached => ⟨.ok cached, cache, false⟩
  | none =>
    match network with
    | .ok response =>
      let cache' :=
        if (response.rtype = RespType.basic || response.rtype = RespType.cors)
            && response.status = 200
        then cachePut cache (requestKey req) response else cache
      ⟨.ok response, cache', true⟩
    | .error e => ⟨.error e, cache, true⟩

/-- Which branch of the fetch listener handles a request: pass through
untouched, respond via the navigation branch, or respond via the
static-asset branch. -/
inductive FetchAction
  | passThrough
  | respondNavigation
  | respondStatic
  deriving DecidableEq, Repr

/-- The dispatch structure of the fetch listener in sw.js: only
same-origin GET requests are handled; navigations go to the navigation
branch; other requests go to the static branch only when within scope
and matching isStaticAsset. -/
def dispatch (scope : String) (req : Request) : FetchAction :=
  if req.method ≠ "GET" then .passThrough
  else if !req.sameOrigin then .passThrough
  else if req.isNavigate then .respondNavigation
  else
    let scopeSlash := scope ++ "/"
    let isWithinScope := req.pathname = scope || strStartsWith req.pathname scopeSlash
    if !isWithinScope then .passThrough
    else if isStaticAsset scope req.pathname then .respondStatic
    else .passThrough

end SW

/-! ## Render scale (src/app/hooks/usePDFPages.ts, getRenderScale) -/

namespace UPP

/-- getRenderScale from usePDFPages.ts: the device pixel ratio
(absent or zero falls back to 1, matching the JS expression
window.devicePixelRatio or 1) is multiplied by 1.1 and clamped into
the band from 1.15 to 1.75. Numbers are modelled as rationals; the
clamp property proved about this function is order-theoretic and does
not depend on rounding in the multiplication. -/
def getRenderScale (devicePixelRatio : Option ℚ) : ℚ :=
  let dpr : ℚ := match devicePixelRatio with
    | none => 1
    | some d => if d = 0 then 1 else d
  min 1.75 (max 1.15 (dpr * 1.1))

end UPP

/-! ## FlipBook page render cache (FlipBook.tsx) -/

namespace FB

/-- PDFPageImage from usePDFPages.ts: page number, object-URL handle
(an abstract identifier), and pixel dimensions. -/
structure PDFPageImage where
  pageNumber : Int
  imageUrl : Nat
  width : Int
  height : Int
  deriving DecidableEq, Repr

/-- MAX_PAGE_CACHE from FlipBook.tsx. -/
def MAX_PAGE_CACHE : Nat := 10

/-- The page cache: a JS Map from page number to rendered page,
modelled as an association list in insertion order (Map iteration
order). -/
abbrev PageCache := List (Int × PDFPageImage)

/-- Absolute numeric distance between a page number and the focus page
(Math.abs(a - focusPage)). -/
def pageDist (a focusPage : Int) : Nat := (a - focusPage).natAbs

/-- Lookup in an insertion-ordered map (Map.prototype.get). -/
def mapGet (cache : List (Int × PDFPageImage)) (p : Int) : Option PDFPageImage :=
  (List.find? (fun e => e.1 = p) cache).map Prod.snd

/-- Membership test in an insertion-ordered map (Map.prototype.has). -/
def mapHas (cache : List (Int × PDFPageImage)) (p : Int) : Bool :=
  (List.find? (fun e => e.1 = p) cache).isSome

/-- The page numbers resident in a page cache, in insertion order
(the spread of cache.keys()). -/
def cacheKeys (cache : PageCache) : List Int := cache.map Prod.fst

/-- pruneCache from FlipBook.tsx (lines 51-70): when the cache exceeds
MAX_PAGE_CACHE entries, stably sort the keys by absolute distance to
focusPage (JS Array.prototype.sort is mandated stable; it is modelled
by the stable insertionSort), keep the first MAX_PAGE_CACHE of them,
rebuild the map in iteration order from the kept entries, and revoke
the object URL of every other entry. Returns the new cache together
with the list of revoked handles. -/
def closestKeys (keys : List Int) (focusPage : Int) : List Int :=
  (List.insertionSort
    (fun a b => pageDist a focusPage ≤ pageDist b focusPage) keys).take
    MAX_PAGE_CACHE

/-- pruneCache itself: prune nothing at or under capacity, otherwise
keep exactly the entries whose key is among the closest keys and
revoke every other entry's handle. -/
def pruneCache (cache : PageCache) (focusPage : Int) :
    PageCache × List Nat :=
  if cache.length ≤ MAX_PAGE_CACHE then (cache, [])
  else
    let closestPages := closestKeys (cacheKeys cache) focusPage
    let next := cache.filter (fun e => decide (e.1 ∈ closestPages))
    let revoked := (cache.filter (fun e => !decide (e.1 ∈ closestPages))).map
      (fun e => e.2.imageUrl)
    (next, revoked)

/-- The FlipBook component state relevant to the page cache: the
document page count, the page cache, the in-flight map (page number
with the priority of its render task, in insertion order), the
loading indicator, the error banner, the page most recently focused by
the prefetch effect, and the accumulated list of revoked object URLs
(for leak accounting). -/
structure FBState where
  totalPages : Int
  pageCache : PageCache
  inFlight : List (Int × Bool)
  loadingPageNumber : Option Int
  pageError : Option String
  focusedPage : Int
  revoked : List Nat
  deriving Repr

/-- The error message set by the priority failure branch. -/
def renderErrorMsg : String := "Falha ao renderizar esta pagina. Tente novamente."

/-- Outcome of one renderPage call awaited by a render task. -/
inductive RenderOutcome
  | success (img : PDFPageImage)
  | failure
  deriving Repr

/-- The setPageCache updater of a successful render task: if the page
appeared in the cache meanwhile, revoke the fresh handle and keep the
map; otherwise insert the page and prune with the inserted page as
focus; in both cases the error banner is then cleared. -/
def applySuccess (s : FBState) (p : Int) (rendered : PDFPageImage) : FBState :=
  if mapHas s.pageCache p then
    { s with revoked := s.revoked ++ [rendered.imageUrl], pageError := none }
  else
    let next := s.pageCache ++ [(p, rendered)]
    let pruned := pruneCache next p
    { s with pageCache := pruned.1, revoked := s.revoked ++ pruned.2,
             pageError := none }

/-- The catch branch of a render task: a priority failure surfaces the
error banner, a prefetch failure changes nothing. -/
def applyFailure (s : FBState) (priority : Bool) : FBState :=
  if priority then { s with pageError := some renderErrorMsg } else s

/-- The finally branch of a render task: a priority task clears the
loading indicator when it still points at this page. -/
def applyFinally (s : FBState) (p : Int) (priority : Bool) : FBState :=
  if priority then
    { s with loadingPageNumber :=
        if s.loadingPageNumber = some p then none else s.loadingPageNumber }
  else s

/-- The state transformation of a render task settling with a given
outcome (the try/catch/finally body of the task in ensurePageLoaded). -/
def completeTask (s : FBState) (p : Int) (priority : Bool)
    (out : RenderOutcome) : FBState :=
  let s1 := match out with
    | .success rendered => applySuccess s p rendered
    | .failure => applyFailure s priority
  applyFinally s1 p priority

/-- Small-step semantics, start of an ensurePageLoaded call: run the
synchronous part of the call up to the suspension inside renderPage.
Out-of-range and already-cached pages return at once; an existing
in-flight task is awaited instead of starting a new one. Otherwise the
task begins (setting the loading indicator when priority) and is
registered in the in-flight map. The boolean reports whether a new
underlying render was started. -/
def stepStart (s : FBState) (p : Int) (priority : Bool) : FBState × Bool :=
  if p < 1 || p > s.totalPages then (s, false)
  else if mapHas s.pageCache p then (s, false)
  else if (List.find? (fun e => e.1 = p) s.inFlight).isSome then (s, false)
  else
    ({ s with
        loadingPageNumber := if priority then some p else s.loadingPageNumber,
        inFlight := s.inFlight ++ [(p, priority)] }, true)

/-- Small-step semantics, completion of the in-flight render task for
page p with a given outcome: apply the task body's effects using the
priority recorded at start time, then delete the in-flight entry
(the finally attached to the awaited task). With no in-flight task for
p the event is a no-op. -/
def stepComplete (s : FBState) (p : Int) (out : RenderOutcome) : FBState :=
  match List.find? (fun e => e.1 = p) s.inFlight with
  | none => s
  | some entry =>
    { completeTask s p entry.2 out with
      inFlight := (completeTask s p entry.2 out).inFlight.filter
        (fun e => e.1 ≠ p) }

/-- The prefetch effect of FlipBook.tsx run after a focus change to
0-based index currentPage: with a positive page count, request the
focused 1-based page with priority and its two neighbours without. -/
def stepFocus (s : FBState) (currentPage : Int) : FBState :=
  if s.totalPages ≤ 0 then s
  else
    let p := currentPage + 1
    let s0 := { s with focusedPage := p }
    let s1 := (stepStart s0 p true).1
    let s2 := (stepStart s1 (p - 1) false).1
    (stepStart s2 (p + 1) false).1

/-- Events of the FlipBook cache model. -/
inductive FBEvent
  | start (p : Int) (priority : Bool)
  | complete (p : Int) (out : RenderOutcome)
  | focus (currentPage : Int)

/-- One event step; the boolean reports whether the event started a new
underlying render. -/
def stepEv (s : FBState) (e : FBEvent) : FBState × Bool :=
  match e with
  | .start p priority => stepStart s p priority
  | .complete p out => (stepComplete s p out, false)
  | .focus c => (stepFocus s c, false)

/-- The render task body of ensurePageLoaded in the Except monad,
with the renderPage outcome passed in: try awaits the render and
applies the insertion, catch handles any rejection, finally resets the
loading indicator. The only throwing operation is the awaited render,
and it is inside the try. -/
def taskBodyE (s : FBState) (p : Int) (priority : Bool)
    (render : Except String PDFPageImage) : Except String FBState := do
  let s1 ← Except.tryCatch
    (do
      let rendered ← render
      pure (applySuccess s p rendered))
    (fun _ => pure (applyFailure s priority))
  pure (applyFinally s1 p priority)

/-- The outcome a task observes from a renderPage result. -/
def renderOutcome (render : Except String PDFPageImage) : RenderOutcome :=
  match render with
  | .ok img => .success img
  | .error _ => .failure

/-- One full ensurePageLoaded call run to completion in the Except
monad (a thrown error models a rejected returned promise), with the
awaited renderPage outcome passed in. An existing in-flight task is
awaited (settling with its own recorded priority) instead of starting
a new render; otherwise the call registers and runs its own task and
deletes the in-flight entry when it settles. -/
def ensurePageLoadedE (s : FBState) (p : Int) (priority : Bool)
    (render : Except String PDFPageImage) : Except String FBState :=
  if p < 1 || p > s.totalPages then pure s
  else if mapHas s.pageCache p then pure s
  else
    match List.find? (fun e => e.1 = p) s.inFlight with
    | some entry => do
      let s1 ← taskBodyE s p entry.2 render
      pure { s1 with inFlight := s1.inFlight.filter (fun e => e.1 ≠ p) }
    | none => do
      let s0 := { s with
        loadingPageNumber := if priority then some p else s.loadingPageNumber,
        inFlight := s.inFlight ++ [(p, priority)] }
      let s1 ← taskBodyE s0 p priority render
      pure { s1 with inFlight := s1.inFlight.filter (fun e => e.1 ≠ p) }

/-- The initial FlipBook state for a document with the given page
count: empty cache, nothing in flight, no error, focus on page 1. -/
def initFB (totalPages : Int) : FBState :=
  ⟨totalPages, [], [], none, none, 1, []⟩

/-- Run a list of events from a state. -/
def runEvents (s : FBState) (evs : List FBEvent) : FBState :=
  evs.foldl (fun s e => (stepEv s e).1) s

end FB

/-! ## Document generations (src/app/hooks/usePDFPages.ts) -/

namespace UPP

/-- A pending getDocument load: the generation captured when its effect
ran, the identity of the document being decoded, and its page count. -/
structure PendingLoad where
  capturedGen : Nat
  docId : Nat
  numPages : Nat
  deriving DecidableEq, Repr

/-- State of the usePDFPages hook: generationRef, the installed decoded
document (pdfRef) with its page count, the loading and error flags, the
pending loads, and every document instance on which destroy was called. -/
structure PdfState where
  generation : Nat
  installed : Option Nat
  totalPages : Nat
  loading : Bool
  error : Option String
  pending : List PendingLoad
  destroyedDocs : List Nat
  deriving Repr

/-- The error message of the document-load failure branch. -/
def loadErrorMsg : String := "Falha ao abrir o PDF. Verifique se o arquivo esta valido."

/-- The load effect of usePDFPages.ts for a new non-empty pdfUrl
(lines 41-80): bump and capture the generation, destroy and clear the
previously installed document (cleanupCurrentPdf), reset the
loading/error/totalPages state, and start a getDocument load carrying
the captured generation. -/
def effectRun (s : PdfState) (docId numPages : Nat) : PdfState :=
  let captured := s.generation + 1
  let destroyed := match s.installed with
    | some d => s.destroyedDocs ++ [d]
    | none => s.destroyedDocs
  { s with
      generation := captured,
      installed := none,
      destroyedDocs := destroyed,
      loading := true,
      error := none,
      totalPages := 0,
      pending := s.pending ++ [⟨captured, docId, numPages⟩] }

/-- The effect cleanup of usePDFPages.ts (lines 82-88): mark the
closure unmounted and bump the generation, superseding the effect's
load (the destroy of the loading task only accelerates its rejection,
which the generation guard already discards). -/
def effectCleanup (s : PdfState) : PdfState :=
  { s with generation := s.generation + 1 }

/-- A pending load resolving with a decoded document (lines 62-71):
when the captured generation is stale the document is destroyed and
nothing else changes; otherwise the document is installed and the page
count published. -/
def loadResolve (s : PdfState) (l : PendingLoad) : PdfState :=
  if l ∈ s.pending then
    let s0 := { s with pending := s.pending.filter (fun x => x ≠ l) }
    if l.capturedGen ≠ s.generation then
      { s0 with destroyedDocs := s0.destroyedDocs ++ [l.docId] }
    else
      { s0 with installed := some l.docId, totalPages := l.numPages,
                loading := false }
  else s

/-- A pending load rejecting (lines 72-77): a stale failure is
discarded silently; a current one surfaces the load error. -/
def loadReject (s : PdfState) (l : PendingLoad) : PdfState :=
  if l ∈ s.pending then
    let s0 := { s with pending := s.pending.filter (fun x => x ≠ l) }
    if l.capturedGen ≠ s.generation then s0
    else { s0 with error := some loadErrorMsg, loading := false }
  else s

/-- Events of the document-generation model. -/
inductive UEvent
  | open_ (docId numPages : Nat)
  | cleanup
  | resolve (l : PendingLoad)
  | reject (l : PendingLoad)

/-- Whether an event is a load completion (as opposed to an effect
run or cleanup). -/
def UEvent.isLoadCompletion : UEvent → Bool
  | .resolve _ => true
  | .reject _ => true
  | _ => false

/-- One event step of the document-generation model. -/
def stepU (s : PdfState) (e : UEvent) : PdfState :=
  match e with
  | .open_ d n => effectRun s d n
  | .cleanup => effectCleanup s
  | .resolve l => loadResolve s l
  | .reject l => loadReject s l

/-- The initial hook state. -/
def initU : PdfState := ⟨0, none, 0, true, none, [], []⟩

/-- Run a list of events from a state. -/
def runU (s : PdfState) (evs : List UEvent) : PdfState :=
  evs.foldl stepU s

/-- renderPage from usePDFPages.ts, abstracted to document identity:
it throws when no document is installed or the page is out of range,
and otherwise produces a page raster belonging to the installed
document. -/
def renderPageU (s : PdfState) (k : Int) : Except String (Nat × Int) :=
  match s.installed with
  | none => .error "Documento PDF ainda nao foi carregado."
  | some d =>
    if k < 1 || k > (s.totalPages : Int) then .error "Pagina invalida"
    else .ok (d, k)

end UPP

/-! ## Derived notions and concrete example data -/

namespace FB

/-- The reachable-state invariant of the FlipBook cache model: cache
keys and in-flight keys are free of duplicates, the cache is within
capacity, and every resident or in-flight page number is in range. -/
def Inv (s : FBState) : Prop :=
  (cacheKeys s.pageCache).Nodup ∧
  s.pageCache.length ≤ MAX_PAGE_CACHE ∧
  (s.inFlight.map Prod.fst).Nodup ∧
  (∀ k ∈ cacheKeys s.pageCache, 1 ≤ k ∧ k ≤ s.totalPages) ∧
  (∀ k ∈ s.inFlight.map Prod.fst, 1 ≤ k ∧ k ≤ s.totalPages)

/-- A concrete rendered page for page p with handle p. -/
def imgFor (p : Int) : PDFPageImage := ⟨p, p.toNat, 100, 140⟩

/-- A concrete event trace on a 30-page document: pages 5, 9, 10, 15,
14, 16, 17, 20, 11 and 12 are rendered through focus moves, the focus
ends on page 12, and then the prefetch render of page 13 (requested by
the focus move to 12) completes and overflows the cache. -/
def c2Trace : List FBEvent :=
  [.focus 4, .complete 5 (.success (imgFor 5)),
   .focus 8, .complete 9 (.success (imgFor 9)),
   .complete 10 (.success (imgFor 10)),
   .focus 14, .complete 15 (.success (imgFor 15)),
   .complete 14 (.success (imgFor 14)),
   .complete 16 (.success (imgFor 16)),
   .focus 16, .complete 17 (.success (imgFor 17)),
   .focus 19, .complete 20 (.success (imgFor 20)),
   .focus 10, .complete 11 (.success (imgFor 11)),
   .focus 11, .complete 12 (.success (imgFor 12)),
   .complete 13 (.success (imgFor 13))]

/-- A concrete FlipBook state holding ten pages with pages 5 and 20 at
the distance-ordering boundary around pages 12 and 13. -/
def fbStateEx : FBState :=
  { totalPages := 30,
    pageCache := [5, 20, 9, 10, 11, 12, 14, 15, 16, 17].map
      (fun p => ((p : Int), imgFor p)),
    inFlight := [(13, false)],
    loadingPageNumber := none,
    pageError := none,
    focusedPage := 12,
    revoked := [] }

/-- A concrete FlipBook state with a render for page 5 in flight. -/
def fbInFlightEx : FBState :=
  { totalPages := 6,
    pageCache := [],
    inFlight := [(5, true)],
    loadingPageNumber := some 5,
    pageError := none,
    focusedPage := 5,
    revoked := [] }

end FB

namespace SW

/-- A cached copy of the shell document. -/
def navCachedResp : Response := ⟨200, .basic, 1⟩

/-- A fresh network copy of the shell document, with a different body. -/
def navFreshResp : Response := ⟨200, .basic, 2⟩

/-- A cache already holding the shell document under the shell URL. -/
def navCacheEx : CacheStore := [("/index.html", navCachedResp)]

/-- A same-origin GET navigation request at the scope root. -/
def navReqEx : Request := ⟨"GET", true, "/", "", true⟩

/-- A cached copy of a static script asset. -/
def statCachedResp : Response := ⟨200, .basic, 3⟩

/-- A fresh network copy of the same asset, with a different body. -/
def statFreshResp : Response := ⟨200, .basic, 4⟩

/-- A cache already holding the script asset under its bare URL. -/
def statCacheEx : CacheStore := [("/assets/app.js", statCachedResp)]

/-- A same-origin GET request for the script asset, no querystring. -/
def statReqEx : Request := ⟨"GET", true, "/assets/app.js", "", false⟩

/-- The same request with a cache-busting querystring. -/
def statReqQsEx : Request := ⟨"GET", true, "/assets/app.js", "?v=2", false⟩

end SW

namespace UPP

/-- A concrete hook state whose only pending load is stale: the
generation moved past the load's captured generation. -/
def staleStateEx : PdfState :=
  { generation := 3,
    installed := none,
    totalPages := 0,
    loading := true,
    error := none,
    pending := [⟨1, 1, 6⟩, ⟨3, 2, 8⟩],
    destroyedDocs := [] }

end UPP

/-! ## Theorems: service worker -/

namespace SW

theorem cacheMatch_cachePut (cache : CacheStore) (key : String) (r : Response) :
    cacheMatch (cachePut cache key r) key = some r := by
  unfold cacheMatch cachePut
  rw [List.find?_append]
  have hnone : List.find? (fun e => decide (e.1 = key))
      (List.filter (fun e => decide (e.1 ≠ key)) cache) = none := by
    rw [List.find?_eq_none]
    intro e he
    have := List.of_mem_filter he
    simp at this ⊢
    exact this
  rw [hnone]
  simp

end SW

/-- C1: the claim that the navigation branch is network-first fails on
the code. With a cached shell present and the network available and
returning a distinct fresh shell, the handler issues no network fetch
at all and returns the previously cached shell instead of the network
response. -/
theorem C1_counterexample :
    SW.dispatch "" SW.navReqEx = SW.FetchAction.respondNavigation ∧
    (SW.handleNavigation "" SW.navCacheEx (.ok SW.navFreshResp)).fetched = false ∧
    (SW.handleNavigation "" SW.navCacheEx (.ok SW.navFreshResp)).response =
      .ok SW.navCachedResp ∧
    SW.navCachedResp ≠ SW.navFreshResp :=
  ⟨by decide, rfl, rfl, by decide⟩

/-- C1 (amended): the navigation branch is cache-first with network
fallback. For every request dispatched to the navigation branch: if a
cached shell exists it is returned unchanged with no network fetch and
no cache write; otherwise the shell is fetched from the network: a
response is returned as is and stored under the shell URL exactly when
its status is 200, and a network failure fails the request, leaving
the cache unchanged. -/
theorem C1_amended_thm (scope : String) (req : SW.Request)
    (cache : SW.CacheStore) (network : SW.FetchOutcome)
    (hreq : SW.dispatch scope req = SW.FetchAction.respondNavigation) :
    (∀ r, SW.cacheMatch cache (SW.withScope scope "/index.html") = some r →
      (SW.handleNavigation scope cache network).response = .ok r ∧
      (SW.handleNavigation scope cache network).fetched = false ∧
      (SW.handleNavigation scope cache network).cache = cache) ∧
    (SW.cacheMatch cache (SW.withScope scope "/index.html") = none →
      (SW.handleNavigation scope cache network).fetched = true ∧
      (∀ r, network = .ok r →
        (SW.handleNavigation scope cache network).response = .ok r ∧
        (r.status = 200 →
          SW.cacheMatch (SW.handleNavigation scope cache network).cache
            (SW.withScope scope "/index.html") = some r) ∧
        (r.status ≠ 200 →
          (SW.handleNavigation scope cache network).cache = cache)) ∧
      (∀ e, network = .error e →
        (SW.handleNavigation scope cache network).response = .error e ∧
        (SW.handleNavigation scope cache network).cache = cache)) := by
  constructor
  · intro r hr
    simp [SW.handleNavigation, hr]
  · intro hnone
    refine ⟨?_, ?_, ?_⟩
    · cases network with
      | ok r => simp [SW.handleNavigation, hnone]
      | error e => simp [SW.handleNavigation, hnone]
    · rintro r rfl
      by_cases hs : r.status = 200
      · simp [SW.handleNavigation, hnone, hs, SW.cacheMatch_cachePut]
      · simp [SW.handleNavigation, hnone, hs]
    · rintro e rfl
      simp [SW.handleNavigation, hnone]

/-- C1 witness: on the concrete cached-shell input the amended theorem
applies and yields the cached response without a fetch. -/
theorem C1_witness :
    (SW.handleNavigation "" SW.navCacheEx (.ok SW.navFreshResp)).response =
      .ok SW.navCachedResp ∧
    (SW.handleNavigation "" SW.navCacheEx (.ok SW.navFreshResp)).fetched = false := by
  have h := C1_amended_thm "" SW.navReqEx SW.navCacheEx (.ok SW.navFreshResp)
    (by decide)
  have h1 := h.1 SW.navCachedResp (by decide)
  exact ⟨h1.1, h1.2.1⟩

/-- C3: the claim of background revalidation and querystring-ignoring
matching fails on the code. On a cached static asset the handler
returns the cached copy and issues no background network fetch at all;
and a request differing only by a querystring misses the cached entry
and goes to the network instead of matching while ignoring the
querystring. -/
theorem C3_counterexample :
    SW.dispatch "" SW.statReqEx = SW.FetchAction.respondStatic ∧
    (SW.handleStaticAsset SW.statCacheEx SW.statReqEx (.ok SW.statFreshResp)).fetched
      = false ∧
    (SW.handleStaticAsset SW.statCacheEx SW.statReqEx (.ok SW.statFreshResp)).response
      = .ok SW.statCachedResp ∧
    SW.statCachedResp ≠ SW.statFreshResp ∧
    SW.dispatch "" SW.statReqQsEx = SW.FetchAction.respondStatic ∧
    (SW.handleStaticAsset SW.statCacheEx SW.statReqQsEx (.ok SW.statFreshResp)).fetched
      = true :=
  ⟨by decide, rfl, rfl, by decide, by decide, rfl⟩

/-- C3 (amended): the static-asset branch is plain cache-first without
revalidation, matching on the full URL including the querystring. For
every request dispatched to the static branch: a cached match is
returned unchanged with no network fetch and no cache write; on a miss
the response is fetched and returned, and a clone is stored exactly
when the response has status 200 and type basic or cors; a network
failure propagates, leaving the cache unchanged. -/
theorem C3_amended_thm (scope : String) (req : SW.Request)
    (cache : SW.CacheStore) (network : SW.FetchOutcome)
    (hreq : SW.dispatch scope req = SW.FetchAction.respondStatic) :
    (∀ r, SW.cacheMatch cache (SW.requestKey req) = some r →
      (SW.handleStaticAsset cache req network).response = .ok r ∧
      (SW.handleStaticAsset cache req network).fetched = false ∧
      (SW.handleStaticAsset cache req network).cache = cache) ∧
    (SW.cacheMatch cache (SW.requestKey req) = none →
      (SW.handleStaticAsset cache req network).fetched = true ∧
      (∀ r, network = .ok r →
        (SW.handleStaticAsset cache req network).response = .ok r ∧
        ((r.rtype = SW.RespType.basic ∨ r.rtype = SW.RespType.cors) ∧ r.status = 200 →
          SW.cacheMatch (SW.handleStaticAsset cache req network).cache
            (SW.requestKey req) = some r) ∧
        (¬((r.rtype = SW.RespType.basic ∨ r.rtype = SW.RespType.cors) ∧ r.status = 200) →
          (SW.handleStaticAsset cache req network).cache = cache)) ∧
      (∀ e, network = .error e →
        (SW.handleStaticAsset cache req network).response = .error e ∧
        (SW.handleStaticAsset cache req network).cache = cache)) := by
  constructor
  · intro r hr
    simp [SW.handleStaticAsset, hr]
  · intro hnone
    refine ⟨?_, ?_, ?_⟩
    · cases network with
      | ok r => simp [SW.handleStaticAsset, hnone]
      | error e => simp [SW.handleStaticAsset, hnone]
    · rintro r rfl
      by_cases hc : (r.rtype = SW.RespType.basic ∨ r.rtype = SW.RespType.cors) ∧
          r.status = 200
      · have hb : (r.rtype = SW.RespType.basic || r.rtype = SW.RespType.cors)
            && r.status = 200 := by
          rcases hc with ⟨h1 | h1, h2⟩ <;> simp [h1, h2]
        simp [SW.handleStaticAsset, hnone, hb, SW.cacheMatch_cachePut, hc]
      · have hb : ¬((r.rtype = SW.RespType.basic || r.rtype = SW.RespType.cors)
            && r.status = 200) := by
          intro hcon
          apply hc
          simp at hcon
          exact ⟨by tauto, hcon.2⟩
        simp [SW.handleStaticAsset, hnone, hb, hc]
    · rintro e rfl
      simp [SW.handleStaticAsset, hnone]

/-- C3 witness: on the concrete cached-asset input the amended theorem
applies and yields the cached response without a fetch. -/
theorem C3_witness :
    (SW.handleStaticAsset SW.statCacheEx SW.statReqEx (.ok SW.statFreshResp)).response
      = .ok SW.statCachedResp ∧
    (SW.handleStaticAsset SW.statCacheEx SW.statReqEx (.ok SW.statFreshResp)).fetched
      = false := by
  have h := C3_amended_thm "" SW.statReqEx SW.statCacheEx (.ok SW.statFreshResp)
    (by decide)
  have h1 := h.1 SW.statCachedResp (by decide)
  exact ⟨h1.1, h1.2.1⟩

/-! ## Theorems: render scale -/

/-- C9: for every device pixel ratio, absent treated as one, the render
scale is clamped into the band from 1.15 to 1.75. -/
theorem C9_scale_clamped (d : Option ℚ) :
    (1.15 : ℚ) ≤ UPP.getRenderScale d ∧ UPP.getRenderScale d ≤ (1.75 : ℚ) := by
  unfold UPP.getRenderScale
  constructor
  · exact le_min (by norm_num) (le_max_left _ _)
  · exact min_le_left _ _

/-! ## Theorems: the ensurePageLoaded promise never rejects -/

/-- C10: for every state, page number, priority and render outcome, the
promise of an ensurePageLoaded call resolves: the call never rejects,
since the only throwing operation is the awaited render and every task
catches its own render failure. -/
theorem C10_always_resolves (s : FB.FBState) (p : Int) (priority : Bool)
    (render : Except String FB.PDFPageImage) :
    ∃ s', FB.ensurePageLoadedE s p priority render = Except.ok s' := by
  unfold FB.ensurePageLoadedE
  split
  · exact ⟨s, rfl⟩
  · split
    · exact ⟨s, rfl⟩
    · cases hf : List.find? (fun e => e.1 = p) s.inFlight with
      | some entry =>
        cases render with
        | ok img => exact ⟨_, rfl⟩
        | error err => exact ⟨_, rfl⟩
      | none =>
        cases render with
        | ok img => exact ⟨_, rfl⟩
        | error err => exact ⟨_, rfl⟩

/-! ## Theorems: page cache helper lemmas -/

namespace FB

theorem mapHas_iff (c : PageCache) (p : Int) :
    mapHas c p = true ↔ p ∈ cacheKeys c := by
  simp [mapHas, cacheKeys, List.find?_isSome]

theorem mapHas_false_iff (c : PageCache) (p : Int) :
    mapHas c p = false ↔ p ∉ cacheKeys c := by
  rw [← mapHas_iff]
  cases mapHas c p <;> simp

theorem mapGet_isSome_iff (c : PageCache) (p : Int) :
    (mapGet c p).isSome = true ↔ p ∈ cacheKeys c := by
  simp [mapGet, cacheKeys, List.find?_isSome]

theorem mapGet_eq_none (c : PageCache) (p : Int) (h : p ∉ cacheKeys c) :
    mapGet c p = none := by
  unfold mapGet
  rw [List.find?_eq_none.2]
  · rfl
  · intro e he
    simp only [decide_eq_true_eq]
    intro hep
    exact h (List.mem_map.2 ⟨e, he, hep⟩)

theorem cacheKeys_filter_mem (c : PageCache) (S : List Int) :
    cacheKeys (c.filter (fun e => decide (e.1 ∈ S))) =
      (cacheKeys c).filter (fun k => decide (k ∈ S)) := by
  unfold cacheKeys
  rw [List.map_filter]
  rfl

theorem closestKeys_subset (keys : List Int) (f : Int) :
    closestKeys keys f ⊆ keys := by
  intro x hx
  have h1 := List.take_subset MAX_PAGE_CACHE
    (List.insertionSort (fun a b => pageDist a f ≤ pageDist b f) keys) hx
  exact (List.perm_insertionSort _ keys).mem_iff.1 h1

theorem closestKeys_nodup (keys : List Int) (f : Int) (h : keys.Nodup) :
    (closestKeys keys f).Nodup :=
  List.Nodup.sublist (List.take_sublist _ _)
    ((List.perm_insertionSort _ keys).nodup_iff.2 h)

theorem closestKeys_length_le (keys : List Int) (f : Int) :
    (closestKeys keys f).length ≤ MAX_PAGE_CACHE :=
  List.length_take_le _ _

theorem closestKeys_length_of_ge (keys : List Int) (f : Int)
    (h : MAX_PAGE_CACHE ≤ keys.length) :
    (closestKeys keys f).length = MAX_PAGE_CACHE := by
  have hlen : (List.insertionSort
      (fun a b => pageDist a f ≤ pageDist b f) keys).length = keys.length :=
    (List.perm_insertionSort _ keys).length_eq
  unfold closestKeys
  rw [List.length_take, hlen]
  omega

theorem closestKeys_dist_le (keys : List Int) (f x y : Int)
    (hx : x ∈ closestKeys keys f) (hy : y ∈ keys)
    (hyn : y ∉ closestKeys keys f) :
    pageDist x f ≤ pageDist y f := by
  haveI ht : IsTotal Int (fun a b => pageDist a f ≤ pageDist b f) :=
    ⟨fun a b => Nat.le_total _ _⟩
  haveI htr : IsTrans Int (fun a b => pageDist a f ≤ pageDist b f) :=
    ⟨fun a b c hab hbc => Nat.le_trans hab hbc⟩
  have hs : List.Pairwise (fun a b => pageDist a f ≤ pageDist b f)
      (List.insertionSort (fun a b => pageDist a f ≤ pageDist b f) keys) :=
    List.sorted_insertionSort _ keys
  have hy' : y ∈ List.insertionSort (fun a b => pageDist a f ≤ pageDist b f) keys :=
    (List.perm_insertionSort _ keys).mem_iff.2 hy
  rw [← List.take_append_drop MAX_PAGE_CACHE
    (List.insertionSort (fun a b => pageDist a f ≤ pageDist b f) keys)] at hs hy'
  have hyd : y ∈ (List.insertionSort
      (fun a b => pageDist a f ≤ pageDist b f) keys).drop MAX_PAGE_CACHE := by
    rcases List.mem_append.1 hy' with h | h
    · exact absurd h hyn
    · exact h
  exact (List.pairwise_append.1 hs).2.2 x hx y hyd

theorem closestKeys_self_mem (keys : List Int) (p : Int)
    (hnd : keys.Nodup) (hp : p ∈ keys) : p ∈ closestKeys keys p := by
  by_cases hcon : p ∈ closestKeys keys p
  · exact hcon
  · exfalso
    by_cases hlen : keys.length ≤ MAX_PAGE_CACHE
    · apply hcon
      unfold closestKeys
      rw [List.take_of_length_le (by
        rw [(List.perm_insertionSort _ keys).length_eq]; exact hlen)]
      exact (List.perm_insertionSort _ keys).mem_iff.2 hp
    · have htake : (closestKeys keys p).length = MAX_PAGE_CACHE :=
        closestKeys_length_of_ge _ _ (by omega)
      obtain ⟨x, hx⟩ := List.exists_mem_of_length_pos
        (l := closestKeys keys p) (by rw [htake]; norm_num [MAX_PAGE_CACHE])
      have hxp : pageDist x p ≤ pageDist p p := closestKeys_dist_le _ _ _ _ hx hp hcon
      have hzero : pageDist x p = 0 := by
        have : pageDist p p = 0 := by simp [pageDist]
        omega
      have : x = p := by
        have := Int.natAbs_eq_zero.1 hzero
        have := sub_eq_zero.1 this
        exact this
      exact hcon (this ▸ hx)

theorem pruneCache_le (cache : PageCache) (f : Int)
    (h : cache.length ≤ MAX_PAGE_CACHE) : pruneCache cache f = (cache, []) := by
  simp [pruneCache, h]

theorem pruneCache_fst_sublist (cache : PageCache) (f : Int) :
    (pruneCache cache f).1.Sublist cache := by
  unfold pruneCache
  split
  · exact List.Sublist.refl _
  · exact List.filter_sublist _

theorem pruneCache_length_le (cache : PageCache) (f : Int)
    (hnd : (cacheKeys cache).Nodup) :
    (pruneCache cache f).1.length ≤ MAX_PAGE_CACHE := by
  by_cases h : cache.length ≤ MAX_PAGE_CACHE
  · rw [pruneCache_le _ _ h]
    exact h
  · unfold pruneCache
    rw [if_neg h]
    have hkeys := cacheKeys_filter_mem cache (closestKeys (cacheKeys cache) f)
    have hnd2 : ((cacheKeys cache).filter
        (fun k => decide (k ∈ closestKeys (cacheKeys cache) f))).Nodup :=
      List.Nodup.filter _ hnd
    have hsub : ((cacheKeys cache).filter
        (fun k => decide (k ∈ closestKeys (cacheKeys cache) f))) ⊆
        closestKeys (cacheKeys cache) f := by
      intro x hx
      simpa using (List.mem_filter.1 hx).2
    have hsp := (hnd2.subperm hsub).length_le
    calc (cache.filter (fun e =>
          decide (e.1 ∈ closestKeys (cacheKeys cache) f))).length
        = (cacheKeys (cache.filter (fun e =>
            decide (e.1 ∈ closestKeys (cacheKeys cache) f)))).length := by
          simp [cacheKeys]
      _ ≤ MAX_PAGE_CACHE := by
          rw [hkeys]
          exact le_trans hsp (closestKeys_length_le _ _)

theorem pruneCache_length_eq (cache : PageCache) (f : Int)
    (hnd : (cacheKeys cache).Nodup) (hgt : MAX_PAGE_CACHE < cache.length) :
    (pruneCache cache f).1.length = MAX_PAGE_CACHE := by
  unfold pruneCache
  rw [if_neg (by omega)]
  have hSsub : closestKeys (cacheKeys cache) f ⊆ cacheKeys cache :=
    closestKeys_subset _ _
  have hSnd : (closestKeys (cacheKeys cache) f).Nodup := closestKeys_nodup _ _ hnd
  have hfsub : ((cacheKeys cache).filter
      (fun k => decide (k ∈ closestKeys (cacheKeys cache) f))) ⊆
      closestKeys (cacheKeys cache) f := by
    intro x hx
    simpa using (List.mem_filter.1 hx).2
  have hssub : closestKeys (cacheKeys cache) f ⊆
      ((cacheKeys cache).filter
        (fun k => decide (k ∈ closestKeys (cacheKeys cache) f))) := by
    intro x hx
    exact List.mem_filter.2 ⟨hSsub hx, by simpa using hx⟩
  have hperm := ((List.Nodup.filter _ hnd).subperm hfsub).antisymm
    (hSnd.subperm hssub)
  have hlenS : (closestKeys (cacheKeys cache) f).length = MAX_PAGE_CACHE := by
    apply closestKeys_length_of_ge
    simp only [cacheKeys, List.length_map]
    omega
  calc (cache.filter (fun e =>
        decide (e.1 ∈ closestKeys (cacheKeys cache) f))).length
      = (cacheKeys (cache.filter (fun e =>
          decide (e.1 ∈ closestKeys (cacheKeys cache) f)))).length := by
        simp [cacheKeys]
    _ = MAX_PAGE_CACHE := by
        rw [cacheKeys_filter_mem, hperm.length_eq, hlenS]

theorem pruneCache_dist (cache : PageCache) (f : Int)
    (e₁ e₂ : Int × PDFPageImage)
    (h1 : e₁ ∈ (pruneCache cache f).1) (h2 : e₂ ∈ cache)
    (h2n : e₂ ∉ (pruneCache cache f).1) :
    pageDist e₁.1 f ≤ pageDist e₂.1 f := by
  by_cases h : cache.length ≤ MAX_PAGE_CACHE
  · rw [pruneCache_le _ _ h] at h2n
    exact absurd h2 h2n
  · unfold pruneCache at h1 h2n
    rw [if_neg h] at h1 h2n
    have hx : e₁.1 ∈ closestKeys (cacheKeys cache) f := by
      simpa using (List.mem_filter.1 h1).2
    have hyn : e₂.1 ∉ closestKeys (cacheKeys cache) f := by
      intro hy
      exact h2n (List.mem_filter.2 ⟨h2, by simpa using hy⟩)
    have hy : e₂.1 ∈ cacheKeys cache := List.mem_map.2 ⟨e₂, h2, rfl⟩
    exact closestKeys_dist_le _ _ _ _ hx hy hyn

theorem pruneCache_revoked (cache : PageCache) (f : Int)
    (e : Int × PDFPageImage) (he : e ∈ cache)
    (hn : e ∉ (pruneCache cache f).1) :
    e.2.imageUrl ∈ (pruneCache cache f).2 := by
  by_cases h : cache.length ≤ MAX_PAGE_CACHE
  · rw [pruneCache_le _ _ h] at hn
    exact absurd he hn
  · unfold pruneCache at hn ⊢
    rw [if_neg h] at hn ⊢
    have hd : ¬ e.1 ∈ closestKeys (cacheKeys cache) f := by
      intro hd
      exact hn (List.mem_filter.2 ⟨he, by simpa using hd⟩)
    exact List.mem_map.2 ⟨e, List.mem_filter.2 ⟨he, by simpa using hd⟩, rfl⟩

theorem pruneCache_self_mem (cache : PageCache) (p : Int)
    (hnd : (cacheKeys cache).Nodup) (hp : p ∈ cacheKeys cache) :
    p ∈ cacheKeys (pruneCache cache p).1 := by
  by_cases h : cache.length ≤ MAX_PAGE_CACHE
  · rw [pruneCache_le _ _ h]
    exact hp
  · unfold pruneCache
    rw [if_neg h]
    have hpS : p ∈ closestKeys (cacheKeys cache) p :=
      closestKeys_self_mem _ _ hnd hp
    obtain ⟨e, he, hep⟩ := List.mem_map.1 hp
    exact List.mem_map.2 ⟨e, List.mem_filter.2 ⟨he, by simp [hep, hpS]⟩, hep⟩

end FB

/-! ## Theorems: FlipBook state machine machinery -/

namespace FB

@[simp] theorem applySuccess_inFlight (s : FBState) (p : Int) (img : PDFPageImage) :
    (applySuccess s p img).inFlight = s.inFlight := by
  unfold applySuccess
  split <;> rfl

@[simp] theorem applySuccess_totalPages (s : FBState) (p : Int) (img : PDFPageImage) :
    (applySuccess s p img).totalPages = s.totalPages := by
  unfold applySuccess
  split <;> rfl

@[simp] theorem applyFailure_pageCache (s : FBState) (pr : Bool) :
    (applyFailure s pr).pageCache = s.pageCache := by
  unfold applyFailure
  split <;> rfl

@[simp] theorem applyFailure_inFlight (s : FBState) (pr : Bool) :
    (applyFailure s pr).inFlight = s.inFlight := by
  unfold applyFailure
  split <;> rfl

@[simp] theorem applyFailure_totalPages (s : FBState) (pr : Bool) :
    (applyFailure s pr).totalPages = s.totalPages := by
  unfold applyFailure
  split <;> rfl

@[simp] theorem applyFinally_pageCache (s : FBState) (p : Int) (pr : Bool) :
    (applyFinally s p pr).pageCache = s.pageCache := by
  unfold applyFinally
  split <;> rfl

@[simp] theorem applyFinally_inFlight (s : FBState) (p : Int) (pr : Bool) :
    (applyFinally s p pr).inFlight = s.inFlight := by
  unfold applyFinally
  split <;> rfl

@[simp] theorem applyFinally_totalPages (s : FBState) (p : Int) (pr : Bool) :
    (applyFinally s p pr).totalPages = s.totalPages := by
  unfold applyFinally
  split <;> rfl

@[simp] theorem applyFinally_pageError (s : FBState) (p : Int) (pr : Bool) :
    (applyFinally s p pr).pageError = s.pageError := by
  unfold applyFinally
  split <;> rfl

theorem completeTask_inFlight (s : FBState) (p : Int) (pr : Bool)
    (out : RenderOutcome) :
    (completeTask s p pr out).inFlight = s.inFlight := by
  unfold completeTask
  cases out <;> simp

theorem completeTask_totalPages (s : FBState) (p : Int) (pr : Bool)
    (out : RenderOutcome) :
    (completeTask s p pr out).totalPages = s.totalPages := by
  unfold completeTask
  cases out <;> simp

theorem completeTask_pageCache_success (s : FBState) (p : Int) (pr : Bool)
    (img : PDFPageImage) :
    (completeTask s p pr (.success img)).pageCache =
      (applySuccess s p img).pageCache := by
  unfold completeTask
  simp

theorem completeTask_pageCache_failure (s : FBState) (p : Int) (pr : Bool) :
    (completeTask s p pr .failure).pageCache = s.pageCache := by
  unfold completeTask
  simp

theorem notMem_of_mapHas_false (c : PageCache) (p : Int)
    (h : ¬ mapHas c p = true) : p ∉ cacheKeys c :=
  (mapHas_false_iff c p).1 (by simpa using h)

theorem nodup_keys_insert (c : PageCache) (p : Int) (img : PDFPageImage)
    (h : (cacheKeys c).Nodup) (hp : p ∉ cacheKeys c) :
    (cacheKeys (c ++ [(p, img)])).Nodup := by
  simp only [cacheKeys, List.map_append, List.map_cons, List.map_nil]
  rw [List.nodup_append]
  refine ⟨h, List.nodup_singleton _, ?_⟩
  intro a ha hb
  simp only [List.mem_singleton] at hb
  subst hb
  exact hp ha

theorem applySuccess_nodup (s : FBState) (p : Int) (img : PDFPageImage)
    (h : (cacheKeys s.pageCache).Nodup) :
    (cacheKeys (applySuccess s p img).pageCache).Nodup := by
  unfold applySuccess
  by_cases hh : mapHas s.pageCache p = true
  · simp only [hh, if_true]
    exact h
  · simp only [hh, if_false, Bool.false_eq_true]
    have hp : p ∉ cacheKeys s.pageCache := notMem_of_mapHas_false _ _ hh
    exact List.Nodup.sublist
      (List.Sublist.map _ (pruneCache_fst_sublist _ _))
      (nodup_keys_insert _ _ img h hp)

theorem applySuccess_length (s : FBState) (p : Int) (img : PDFPageImage)
    (hnd : (cacheKeys s.pageCache).Nodup)
    (hlen : s.pageCache.length ≤ MAX_PAGE_CACHE) :
    (applySuccess s p img).pageCache.length ≤ MAX_PAGE_CACHE := by
  unfold applySuccess
  by_cases hh : mapHas s.pageCache p = true
  · simp only [hh, if_true]
    exact hlen
  · simp only [hh, if_false, Bool.false_eq_true]
    apply pruneCache_length_le
    exact nodup_keys_insert _ _ img hnd (notMem_of_mapHas_false _ _ hh)

theorem applySuccess_keys_subset (s : FBState) (p : Int) (img : PDFPageImage) :
    cacheKeys (applySuccess s p img).pageCache ⊆ p :: cacheKeys s.pageCache := by
  unfold applySuccess
  by_cases hh : mapHas s.pageCache p = true
  · simp only [hh, if_true]
    exact fun x hx => List.mem_cons_of_mem _ hx
  · simp only [hh, if_false, Bool.false_eq_true]
    intro x hx
    have hsub : cacheKeys (pruneCache (s.pageCache ++ [(p, img)]) p).1 ⊆
        cacheKeys (s.pageCache ++ [(p, img)]) :=
      fun y hy => (List.Sublist.map Prod.fst (pruneCache_fst_sublist _ _)).subset hy
    have hx2 := hsub hx
    simp only [cacheKeys, List.map_append, List.map_cons, List.map_nil] at hx2
    rcases List.mem_append.1 hx2 with h | h
    · exact List.mem_cons_of_mem _ h
    · simp at h
      simp [h]

theorem applySuccess_mem_self (s : FBState) (p : Int) (img : PDFPageImage)
    (hnd : (cacheKeys s.pageCache).Nodup) :
    p ∈ cacheKeys (applySuccess s p img).pageCache := by
  unfold applySuccess
  by_cases hh : mapHas s.pageCache p = true
  · simp only [hh, if_true]
    exact (mapHas_iff _ _).1 hh
  · simp only [hh, if_false, Bool.false_eq_true]
    have hp : p ∉ cacheKeys s.pageCache := notMem_of_mapHas_false _ _ hh
    apply pruneCache_self_mem
    · exact nodup_keys_insert _ _ img hnd hp
    · simp [cacheKeys]

theorem inv_stepStart (s : FBState) (p : Int) (pr : Bool) (h : Inv s) :
    Inv (stepStart s p pr).1 := by
  unfold stepStart
  split
  · exact h
  · split
    · exact h
    · split
      · exact h
      · next hrange hcache hflight =>
        obtain ⟨h1, h2, h3, h4, h5⟩ := h
        have hnotin : p ∉ s.inFlight.map Prod.fst := by
          intro hmem
          obtain ⟨e, he, hep⟩ := List.mem_map.1 hmem
          exact hflight (List.find?_isSome.2 ⟨e, he, by simp [hep]⟩)
        have hr : 1 ≤ p ∧ p ≤ s.totalPages := by
          simp only [Bool.or_eq_true, decide_eq_true_eq, not_or] at hrange
          omega
        refine ⟨h1, h2, ?_, h4, ?_⟩
        · simp only [List.map_append, List.map_cons, List.map_nil]
          rw [List.nodup_append]
          refine ⟨h3, List.nodup_singleton _, ?_⟩
          intro a ha hb
          simp only [List.mem_singleton] at hb
          subst hb
          exact hnotin ha
        · intro k hk
          simp only [List.map_append, List.map_cons, List.map_nil] at hk
          rcases List.mem_append.1 hk with hk | hk
          · exact h5 k hk
          · simp at hk
            simpa [hk] using hr

theorem inv_stepComplete (s : FBState) (p : Int) (out : RenderOutcome)
    (h : Inv s) : Inv (stepComplete s p out) := by
  unfold stepComplete
  cases hf : List.find? (fun e => e.1 = p) s.inFlight with
  | none => exact h
  | some entry =>
    obtain ⟨h1, h2, h3, h4, h5⟩ := h
    have hentry1 : entry.1 = p := by
      have := List.find?_some hf
      simpa using this
    have hpmem : p ∈ s.inFlight.map Prod.fst :=
      List.mem_map.2 ⟨entry, List.mem_of_find?_eq_some hf, hentry1⟩
    have hrange := h5 p hpmem
    have hknd : (cacheKeys (completeTask s p entry.2 out).pageCache).Nodup := by
      cases out with
      | success img =>
        rw [completeTask_pageCache_success]
        exact applySuccess_nodup _ _ _ h1
      | failure =>
        rw [completeTask_pageCache_failure]
        exact h1
    have hklen : (completeTask s p entry.2 out).pageCache.length ≤
        MAX_PAGE_CACHE := by
      cases out with
      | success img =>
        rw [completeTask_pageCache_success]
        exact applySuccess_length _ _ _ h1 h2
      | failure =>
        rw [completeTask_pageCache_failure]
        exact h2
    have hksub : cacheKeys (completeTask s p entry.2 out).pageCache ⊆
        p :: cacheKeys s.pageCache := by
      cases out with
      | success img =>
        rw [completeTask_pageCache_success]
        exact applySuccess_keys_subset _ _ _
      | failure =>
        rw [completeTask_pageCache_failure]
        exact fun x hx => List.mem_cons_of_mem _ hx
    refine ⟨hknd, hklen, ?_, ?_, ?_⟩
    · show (List.map Prod.fst ((completeTask s p entry.2 out).inFlight.filter
        (fun e => e.1 ≠ p))).Nodup
      rw [completeTask_inFlight]
      exact List.Nodup.sublist
        (List.Sublist.map _ (List.filter_sublist _)) h3
    · show ∀ k ∈ cacheKeys (completeTask s p entry.2 out).pageCache,
        1 ≤ k ∧ k ≤ (completeTask s p entry.2 out).totalPages
      rw [completeTask_totalPages]
      intro k hk
      rcases List.mem_cons.1 (hksub hk) with hk3 | hk3
      · simpa [hk3] using hrange
      · exact h4 k hk3
    · show ∀ k ∈ List.map Prod.fst
          ((completeTask s p entry.2 out).inFlight.filter (fun e => e.1 ≠ p)),
        1 ≤ k ∧ k ≤ (completeTask s p entry.2 out).totalPages
      rw [completeTask_inFlight, completeTask_totalPages]
      intro k hk
      obtain ⟨e, he, hep⟩ := List.mem_map.1 hk
      exact h5 k (List.mem_map.2 ⟨e, (List.filter_sublist _).subset he, hep⟩)

theorem inv_stepFocus (s : FBState) (c : Int) (h : Inv s) :
    Inv (stepFocus s c) := by
  unfold stepFocus
  split
  · exact h
  · apply inv_stepStart
    apply inv_stepStart
    apply inv_stepStart
    exact h

theorem inv_stepEv (s : FBState) (e : FBEvent) (h : Inv s) :
    Inv (stepEv s e).1 := by
  cases e with
  | start p pr => exact inv_stepStart s p pr h
  | complete p out => exact inv_stepComplete s p out h
  | focus c => exact inv_stepFocus s c h

theorem inv_initFB (n : Int) : Inv (initFB n) := by
  refine ⟨?_, ?_, ?_, ?_, ?_⟩ <;> simp [initFB, cacheKeys, MAX_PAGE_CACHE]

theorem inv_runEvents (s : FBState) (evs : List FBEvent) (h : Inv s) :
    Inv (runEvents s evs) := by
  induction evs generalizing s with
  | nil => exact h
  | cons e t ih => exact ih _ (inv_stepEv s e h)

theorem runEvents_append (s : FBState) (l₁ l₂ : List FBEvent) :
    runEvents s (l₁ ++ l₂) = runEvents (runEvents s l₁) l₂ :=
  List.foldl_append _ _ _ _

theorem stepStart_totalPages (s : FBState) (p : Int) (pr : Bool) :
    (stepStart s p pr).1.totalPages = s.totalPages := by
  unfold stepStart
  split
  · rfl
  · split
    · rfl
    · split
      · rfl
      · rfl

theorem stepComplete_totalPages (s : FBState) (p : Int) (out : RenderOutcome) :
    (stepComplete s p out).totalPages = s.totalPages := by
  unfold stepComplete
  cases List.find? (fun e => e.1 = p) s.inFlight with
  | none => rfl
  | some entry => exact completeTask_totalPages _ _ _ _

theorem stepFocus_totalPages (s : FBState) (c : Int) :
    (stepFocus s c).totalPages = s.totalPages := by
  unfold stepFocus
  split
  · rfl
  · simp only [stepStart_totalPages]

theorem stepEv_totalPages (s : FBState) (e : FBEvent) :
    (stepEv s e).1.totalPages = s.totalPages := by
  cases e with
  | start p pr => exact stepStart_totalPages s p pr
  | complete p out => exact stepComplete_totalPages s p out
  | focus c => exact stepFocus_totalPages s c

theorem runEvents_totalPages (s : FBState) (evs : List FBEvent) :
    (runEvents s evs).totalPages = s.totalPages := by
  induction evs generalizing s with
  | nil => rfl
  | cons e t ih => rw [runEvents, List.foldl_cons, ← runEvents, ih,
      stepEv_totalPages]

end FB

namespace FB

theorem stepComplete_success_mem (s : FBState) (k : Int) (img : PDFPageImage)
    (hnd : (cacheKeys s.pageCache).Nodup)
    (hf : (List.find? (fun e => e.1 = k) s.inFlight).isSome = true) :
    k ∈ cacheKeys (stepComplete s k (.success img)).pageCache := by
  unfold stepComplete
  cases hff : List.find? (fun e => e.1 = k) s.inFlight with
  | none =>
    rw [hff] at hf
    simp at hf
  | some entry =>
    show k ∈ cacheKeys (completeTask s k entry.2 (.success img)).pageCache
    rw [completeTask_pageCache_success]
    exact applySuccess_mem_self _ _ _ hnd

theorem start_complete_mem (s : FBState) (k : Int) (img : PDFPageImage)
    (hInv : Inv s) (hk1 : 1 ≤ k) (hk2 : k ≤ s.totalPages) :
    k ∈ cacheKeys
      (stepComplete (stepStart s k true).1 k (.success img)).pageCache := by
  have hc1 : ¬((decide (k < 1) || decide (k > s.totalPages)) = true) := by
    simp only [Bool.or_eq_true, decide_eq_true_eq]
    push_neg
    omega
  by_cases hhas : mapHas s.pageCache k = true
  · have hstart : stepStart s k true = (s, false) := by
      unfold stepStart
      rw [if_neg hc1, if_pos hhas]
    rw [hstart]
    unfold stepComplete
    cases hff : List.find? (fun e => e.1 = k) s.inFlight with
    | none => exact (mapHas_iff _ _).1 hhas
    | some entry =>
      show k ∈ cacheKeys (completeTask s k entry.2 (.success img)).pageCache
      rw [completeTask_pageCache_success]
      exact applySuccess_mem_self _ _ _ hInv.1
  · by_cases hfl : (List.find? (fun e => e.1 = k) s.inFlight).isSome = true
    · have hstart : stepStart s k true = (s, false) := by
        unfold stepStart
        rw [if_neg hc1, if_neg hhas, if_pos hfl]
      rw [hstart]
      exact stepComplete_success_mem _ _ _ hInv.1 hfl
    · have hstart : stepStart s k true = ({ s with
          loadingPageNumber := some k,
          inFlight := s.inFlight ++ [(k, true)] }, true) := by
        unfold stepStart
        rw [if_neg hc1, if_neg hhas, if_neg hfl]
        rfl
      rw [hstart]
      apply stepComplete_success_mem
      · exact hInv.1
      · rw [List.find?_append]
        have h0 : List.find? (fun e => e.1 = k) s.inFlight = none := by
          cases hc : List.find? (fun e => e.1 = k) s.inFlight with
          | none => rfl
          | some e =>
            rw [hc] at hfl
            simp at hfl
        rw [h0]
        simp

end FB

/-! ## Theorems: page cache claims -/

/-- C2: the claim that eviction keeps the entries closest to the page
most recently marked as focused fails on the code: pruneCache is called
with the just-inserted page as focus. On the concrete trace the focus
is page 12 when the prefetch render of page 13 completes and overflows
the cache; the code evicts page 5 (distance 7 from the focused page)
while keeping page 20 (distance 8 from the focused page), so the
retained set is not the ten pages closest to the focused page. -/
theorem C2_counterexample :
    (FB.runEvents (FB.initFB 30) FB.c2Trace).focusedPage = 12 ∧
    FB.mapHas (FB.runEvents (FB.initFB 30) FB.c2Trace).pageCache 20 = true ∧
    FB.mapHas (FB.runEvents (FB.initFB 30) FB.c2Trace).pageCache 5 = false ∧
    FB.pageDist 5 12 < FB.pageDist 20 12 ∧
    (FB.runEvents (FB.initFB 30) FB.c2Trace).pageCache.length =
      FB.MAX_PAGE_CACHE := by
  decide

/-- C2 (amended): after a successful insertion that overflows the
capacity, the retained set is exactly MAX_PAGE_CACHE entries, a
subsequence of the cache with the new entry appended, containing the
page just inserted; every retained entry is at most as far from the
just-inserted page (the pruneCache focus, not the focused page) as
every evicted entry; and every evicted entry's handle is revoked. -/
theorem C2_amended_thm (s : FB.FBState) (p : Int) (img : FB.PDFPageImage)
    (hnd : (FB.cacheKeys s.pageCache).Nodup)
    (hnew : FB.mapHas s.pageCache p = false)
    (hfull : FB.MAX_PAGE_CACHE ≤ s.pageCache.length) :
    (FB.applySuccess s p img).pageCache.length = FB.MAX_PAGE_CACHE ∧
    (FB.applySuccess s p img).pageCache.Sublist (s.pageCache ++ [(p, img)]) ∧
    p ∈ FB.cacheKeys (FB.applySuccess s p img).pageCache ∧
    (∀ e₁ ∈ (FB.applySuccess s p img).pageCache,
     ∀ e₂ ∈ s.pageCache ++ [(p, img)],
      e₂ ∉ (FB.applySuccess s p img).pageCache →
      FB.pageDist e₁.1 p ≤ FB.pageDist e₂.1 p) ∧
    (∀ e ∈ s.pageCache ++ [(p, img)],
      e ∉ (FB.applySuccess s p img).pageCache →
      e.2.imageUrl ∈ (FB.applySuccess s p img).revoked) := by
  have hh : ¬ (FB.mapHas s.pageCache p = true) := by simp [hnew]
  have hp : p ∉ FB.cacheKeys s.pageCache := FB.notMem_of_mapHas_false _ _ hh
  have hnd2 := FB.nodup_keys_insert _ p img hnd hp
  have hgt : FB.MAX_PAGE_CACHE < (s.pageCache ++ [(p, img)]).length := by
    simp only [List.length_append, List.length_cons, List.length_nil]
    omega
  have hAS : FB.applySuccess s p img = { s with
      pageCache := (FB.pruneCache (s.pageCache ++ [(p, img)]) p).1,
      revoked := s.revoked ++ (FB.pruneCache (s.pageCache ++ [(p, img)]) p).2,
      pageError := none } := by
    unfold FB.applySuccess
    rw [if_neg hh]
  rw [hAS]
  refine ⟨?_, ?_, ?_, ?_, ?_⟩
  · exact FB.pruneCache_length_eq _ _ hnd2 hgt
  · exact FB.pruneCache_fst_sublist _ _
  · exact FB.pruneCache_self_mem _ _ hnd2 (by simp [FB.cacheKeys])
  · intro e₁ h1 e₂ h2 h2n
    exact FB.pruneCache_dist _ _ _ _ h1 h2 h2n
  · intro e he hne
    exact List.mem_append_right _ (FB.pruneCache_revoked _ _ _ he hne)

/-- C2 witness: inserting page 13 into the concrete full ten-page cache
prunes back to capacity and keeps the inserted page. -/
theorem C2_witness :
    (FB.applySuccess FB.fbStateEx 13 (FB.imgFor 13)).pageCache.length =
      FB.MAX_PAGE_CACHE ∧
    13 ∈ FB.cacheKeys
      (FB.applySuccess FB.fbStateEx 13 (FB.imgFor 13)).pageCache := by
  have h := C2_amended_thm FB.fbStateEx 13 (FB.imgFor 13) (by decide) (by decide)
    (by decide)
  exact ⟨h.1, h.2.2.1⟩

/-- C4: after any sequence of events (ensurePageLoaded starts, render
completions with any outcome, and focus moves), the resident page
count never exceeds the capacity of ten. -/
theorem C4_capacity_bound (n : Int) (evs : List FB.FBEvent) :
    (FB.runEvents (FB.initFB n) evs).pageCache.length ≤ FB.MAX_PAGE_CACHE :=
  (FB.inv_runEvents _ evs (FB.inv_initFB n)).2.1

/-- C5: from any reachable state of an n-page document, requesting an
in-range page k with priority and a succeeding render leaves page k
resident, so a lookup returns a page; an out-of-range request j is a
no-op returning no render, and a lookup of j is absent. -/
theorem C5_page_load_lookup (n k j : Int) (evs : List FB.FBEvent)
    (img : FB.PDFPageImage) (pr : Bool)
    (hk1 : 1 ≤ k) (hk2 : k ≤ n) (hj : j < 1 ∨ n < j) :
    ((FB.mapGet (FB.runEvents (FB.initFB n)
        (evs ++ [.start k true, .complete k (.success img)])).pageCache
        k).isSome = true) ∧
    FB.stepStart (FB.runEvents (FB.initFB n) evs) j pr =
      (FB.runEvents (FB.initFB n) evs, false) ∧
    FB.mapGet (FB.runEvents (FB.initFB n) evs).pageCache j = none := by
  have hInv := FB.inv_runEvents _ evs (FB.inv_initFB n)
  have htp : (FB.runEvents (FB.initFB n) evs).totalPages = n :=
    FB.runEvents_totalPages (FB.initFB n) evs
  refine ⟨?_, ?_, ?_⟩
  · rw [FB.runEvents_append]
    show (FB.mapGet (FB.stepComplete
        (FB.stepStart (FB.runEvents (FB.initFB n) evs) k true).1 k
        (.success img)).pageCache k).isSome = true
    rw [FB.mapGet_isSome_iff]
    exact FB.start_complete_mem _ _ _ hInv hk1 (by rw [htp]; exact hk2)
  · have hcond : (decide (j < 1) ||
        decide (j > (FB.runEvents (FB.initFB n) evs).totalPages)) = true := by
      rw [htp]
      rcases hj with h | h <;> simp [h]
    unfold FB.stepStart
    rw [if_pos hcond]
  · apply FB.mapGet_eq_none
    intro hmem
    have h2 := hInv.2.2.2.1 j hmem
    rw [htp] at h2
    rcases hj with h | h <;> omega

/-- C5 witness: on a six-page document, loading page 1 makes it
resident, while page 7 is rejected and absent. -/
theorem C5_witness :
    ((FB.mapGet (FB.runEvents (FB.initFB 6)
        ([] ++ [.start 1 true, .complete 1 (.success (FB.imgFor 1))])).pageCache
        1).isSome = true) ∧
    FB.stepStart (FB.runEvents (FB.initFB 6) []) 7 false =
      (FB.runEvents (FB.initFB 6) [], false) ∧
    FB.mapGet (FB.runEvents (FB.initFB 6) []).pageCache 7 = none :=
  C5_page_load_lookup 6 1 7 [] (FB.imgFor 1) false (by omega) (by omega)
    (by omega)

/-- C6: at most one in-flight render exists per page (the reachable
in-flight map has no duplicate page keys); a request for a page already
in flight changes nothing and starts no render; a second request right
after a started one starts no second render; and the in-flight entry is
removed by the completion of the render whatever its outcome. -/
theorem C6_single_flight (n k : Int) (evs : List FB.FBEvent) (s : FB.FBState)
    (pr pr' : Bool) (out : FB.RenderOutcome) :
    ((FB.runEvents (FB.initFB n) evs).inFlight.map Prod.fst).Nodup ∧
    (k ∈ s.inFlight.map Prod.fst → FB.stepStart s k pr = (s, false)) ∧
    ((FB.stepStart s k pr).2 = true →
      (FB.stepStart (FB.stepStart s k pr).1 k pr').2 = false) ∧
    k ∉ (FB.stepComplete s k out).inFlight.map Prod.fst := by
  refine ⟨(FB.inv_runEvents _ evs (FB.inv_initFB n)).2.2.1, ?_, ?_, ?_⟩
  · intro hmem
    have hsome : (List.find? (fun e => e.1 = k) s.inFlight).isSome = true := by
      obtain ⟨e, he, hek⟩ := List.mem_map.1 hmem
      exact List.find?_isSome.2 ⟨e, he, by simp [hek]⟩
    by_cases h1 : (decide (k < 1) || decide (k > s.totalPages)) = true
    · unfold FB.stepStart
      rw [if_pos h1]
    · by_cases h2 : FB.mapHas s.pageCache k = true
      · unfold FB.stepStart
        rw [if_neg h1, if_pos h2]
      · unfold FB.stepStart
        rw [if_neg h1, if_neg h2, if_pos hsome]
  · intro hb
    by_cases h1 : (decide (k < 1) || decide (k > s.totalPages)) = true
    · unfold FB.stepStart at hb
      rw [if_pos h1] at hb
      simp at hb
    · by_cases h2 : FB.mapHas s.pageCache k = true
      · unfold FB.stepStart at hb
        rw [if_neg h1, if_pos h2] at hb
        simp at hb
      · by_cases h3 : (List.find? (fun e => e.1 = k) s.inFlight).isSome = true
        · unfold FB.stepStart at hb
          rw [if_neg h1, if_neg h2, if_pos h3] at hb
          simp at hb
        · have hstart : (FB.stepStart s k pr).1 = { s with
              loadingPageNumber := if pr then some k else s.loadingPageNumber,
              inFlight := s.inFlight ++ [(k, pr)] } := by
            unfold FB.stepStart
            rw [if_neg h1, if_neg h2, if_neg h3]
          rw [hstart]
          have hsome : (List.find? (fun e => e.1 = k)
              (s.inFlight ++ [(k, pr)])).isSome = true := by
            rw [List.find?_append]
            have h0 : List.find? (fun e => e.1 = k) s.inFlight = none := by
              cases hc : List.find? (fun e => e.1 = k) s.inFlight with
              | none => rfl
              | some e =>
                rw [hc] at h3
                simp at h3
            rw [h0]
            simp
          unfold FB.stepStart
          rw [if_neg h1, if_neg h2, if_pos hsome]
  · unfold FB.stepComplete
    cases hff : List.find? (fun e => e.1 = k) s.inFlight with
    | none =>
      intro hmem
      obtain ⟨e, he, hek⟩ := List.mem_map.1 hmem
      have := List.find?_eq_none.1 hff e he
      simp [hek] at this
    | some entry =>
      intro hmem
      obtain ⟨e, he, hek⟩ := List.mem_map.1 hmem
      have hpred := (List.mem_filter.1 he).2
      simp only [decide_eq_true_eq] at hpred
      exact hpred hek

/-- C6 witness: with a render for page 5 in flight, a second request
for page 5 changes nothing and starts no duplicate render. -/
theorem C6_witness :
    5 ∈ FB.fbInFlightEx.inFlight.map Prod.fst ∧
    FB.stepStart FB.fbInFlightEx 5 true = (FB.fbInFlightEx, false) :=
  ⟨by decide,
   (C6_single_flight 6 5 [] FB.fbInFlightEx true false .failure).2.1 (by decide)⟩

/-- C8: a render failure surfaces the user-visible error exactly when
the task had priority (a prefetch failure leaves the error banner
unchanged); the failed page stays unrendered; its in-flight entry is
removed so a later request starts a fresh render; and the call's
promise still resolves rather than rejecting. -/
theorem C8_priority_error (s : FB.FBState) (k : Int) (entry : Int × Bool)
    (err : String)
    (hf : List.find? (fun e => e.1 = k) s.inFlight = some entry) :
    (FB.stepComplete s k .failure).pageError =
      (if entry.2 then some FB.renderErrorMsg else s.pageError) ∧
    (FB.stepComplete s k .failure).pageCache = s.pageCache ∧
    k ∉ (FB.stepComplete s k .failure).inFlight.map Prod.fst ∧
    (entry.2 = false → FB.mapHas s.pageCache k = false → 1 ≤ k →
      k ≤ s.totalPages →
      (FB.stepStart (FB.stepComplete s k .failure) k true).2 = true) ∧
    (∃ s₂, FB.ensurePageLoadedE s k false (.error err) = Except.ok s₂) := by
  have hPE : (FB.completeTask s k entry.2 .failure).pageError =
      (if entry.2 then some FB.renderErrorMsg else s.pageError) := by
    unfold FB.completeTask FB.applyFailure
    cases hb : entry.2 <;> simp
  have hPC : (FB.stepComplete s k .failure).pageCache = s.pageCache := by
    unfold FB.stepComplete
    rw [hf]
    exact FB.completeTask_pageCache_failure _ _ _
  have hIF : (FB.stepComplete s k .failure).inFlight =
      (FB.completeTask s k entry.2 .failure).inFlight.filter
        (fun e => decide (e.1 ≠ k)) := by
    unfold FB.stepComplete
    rw [hf]
  have hNIF : k ∉ (FB.stepComplete s k .failure).inFlight.map Prod.fst := by
    rw [hIF]
    intro hmem
    obtain ⟨e, he, hek⟩ := List.mem_map.1 hmem
    have hpred := (List.mem_filter.1 he).2
    simp only [decide_eq_true_eq] at hpred
    exact hpred hek
  refine ⟨?_, hPC, hNIF, ?_, ?_⟩
  · unfold FB.stepComplete
    rw [hf]
    show (FB.completeTask s k entry.2 .failure).pageError = _
    exact hPE
  · intro hpr hhas hk1 hk2
    have htp := FB.stepComplete_totalPages s k FB.RenderOutcome.failure
    have hc1 : ¬((decide (k < 1) ||
        decide (k > (FB.stepComplete s k FB.RenderOutcome.failure).totalPages))
          = true) := by
      rw [htp]
      simp only [Bool.or_eq_true, decide_eq_true_eq]
      push_neg
      omega
    have hc2 : ¬(FB.mapHas (FB.stepComplete s k FB.RenderOutcome.failure).pageCache
        k = true) := by
      rw [hPC, hhas]
      simp
    have hc3 : ¬((List.find? (fun e => e.1 = k)
        (FB.stepComplete s k FB.RenderOutcome.failure).inFlight).isSome
          = true) := by
      intro hcon
      rw [List.find?_isSome] at hcon
      obtain ⟨e, he, hek⟩ := hcon
      apply hNIF
      exact List.mem_map.2 ⟨e, he, by simpa using hek⟩
    unfold FB.stepStart
    rw [if_neg hc1, if_neg hc2, if_neg hc3]
  · unfold FB.ensurePageLoadedE
    split
    · exact ⟨s, rfl⟩
    · split
      · exact ⟨s, rfl⟩
      · cases List.find? (fun e => e.1 = k) s.inFlight with
        | some entry2 => exact ⟨_, rfl⟩
        | none => exact ⟨_, rfl⟩

/-- C8 witness: the in-flight priority render of page 5 fails and the
error banner is set. -/
theorem C8_witness :
    (FB.stepComplete FB.fbInFlightEx 5 .failure).pageError =
      some FB.renderErrorMsg := by
  have h := (C8_priority_error FB.fbInFlightEx 5 (5, true) "boom" (by decide)).1
  simpa using h

/-! ## Theorems: document generations -/

namespace UPP

theorem staleFor_step (dA : Nat) (s : PdfState) (e : UEvent)
    (hload : e.isLoadCompletion = true)
    (h1 : s.installed ≠ some dA)
    (h2 : ∀ l ∈ s.pending, l.docId = dA → l.capturedGen ≠ s.generation) :
    (stepU s e).installed ≠ some dA ∧
    (stepU s e).generation = s.generation ∧
    ∀ l ∈ (stepU s e).pending, l.docId = dA →
      l.capturedGen ≠ (stepU s e).generation := by
  cases e with
  | open_ d n => simp [UEvent.isLoadCompletion] at hload
  | cleanup => simp [UEvent.isLoadCompletion] at hload
  | resolve l =>
    show (loadResolve s l).installed ≠ some dA ∧
      (loadResolve s l).generation = s.generation ∧
      ∀ l' ∈ (loadResolve s l).pending, l'.docId = dA →
        l'.capturedGen ≠ (loadResolve s l).generation
    unfold loadResolve
    by_cases hmem : l ∈ s.pending
    · rw [if_pos hmem]
      by_cases hg : l.capturedGen ≠ s.generation
      · rw [if_pos hg]
        refine ⟨h1, rfl, ?_⟩
        intro l' hl' hd
        exact h2 l' ((List.filter_sublist _).subset hl') hd
      · rw [if_neg hg]
        push_neg at hg
        refine ⟨?_, rfl, ?_⟩
        · intro hcon
          have hld : l.docId = dA := by
            simpa using hcon
          exact h2 l hmem hld hg
        · intro l' hl' hd
          exact h2 l' ((List.filter_sublist _).subset hl') hd
    · rw [if_neg hmem]
      exact ⟨h1, rfl, h2⟩
  | reject l =>
    show (loadReject s l).installed ≠ some dA ∧
      (loadReject s l).generation = s.generation ∧
      ∀ l' ∈ (loadReject s l).pending, l'.docId = dA →
        l'.capturedGen ≠ (loadReject s l).generation
    unfold loadReject
    by_cases hmem : l ∈ s.pending
    · rw [if_pos hmem]
      by_cases hg : l.capturedGen ≠ s.generation
      · rw [if_pos hg]
        refine ⟨h1, rfl, ?_⟩
        intro l' hl' hd
        exact h2 l' ((List.filter_sublist _).subset hl') hd
      · rw [if_neg hg]
        refine ⟨h1, rfl, ?_⟩
        intro l' hl' hd
        exact h2 l' ((List.filter_sublist _).subset hl') hd
    · rw [if_neg hmem]
      exact ⟨h1, rfl, h2⟩

theorem staleFor_run (dA : Nat) (s : PdfState) (evs : List UEvent)
    (hevs : ∀ e ∈ evs, e.isLoadCompletion = true)
    (h1 : s.installed ≠ some dA)
    (h2 : ∀ l ∈ s.pending, l.docId = dA → l.capturedGen ≠ s.generation) :
    (runU s evs).installed ≠ some dA := by
  induction evs generalizing s with
  | nil => exact h1
  | cons e t ih =>
    have he := hevs e (List.mem_cons_self _ _)
    have ht : ∀ e' ∈ t, e'.isLoadCompletion = true :=
      fun e' he' => hevs e' (List.mem_cons_of_mem _ he')
    obtain ⟨g1, g2, g3⟩ := staleFor_step dA s e he h1 h2
    exact ih (stepU s e) ht g1 g3

theorem renderPageU_ok_installed (s : PdfState) (k : Int) (d : Nat) (q : Int)
    (h : renderPageU s k = .ok (d, q)) : s.installed = some d := by
  unfold renderPageU at h
  split at h
  · exact absurd h (by simp)
  · next d' hins =>
    split at h
    · exact absurd h (by simp)
    · simp only [Except.ok.injEq, Prod.mk.injEq] at h
      rw [hins, h.1]

end UPP

/-- C7: a document load whose completion is observed after a newer open
call is discarded: opening document A and then immediately opening
document B leaves A never installed, whatever order the load
completions arrive in afterwards; a stale load resolution changes
neither the installed document nor the page count nor the loading
flag and destroys the stale decoded document; and a page render
performed while A is not installed never produces a page of A. -/
theorem C7_generation_safety (dA nA dB nB : Nat) (suffix : List UPP.UEvent)
    (s' : UPP.PdfState) (l : UPP.PendingLoad) (k : Int) (d : Nat) (q : Int)
    (hAB : dA ≠ dB)
    (hsuffix : ∀ e ∈ suffix, e.isLoadCompletion = true)
    (hl : l ∈ s'.pending) (hstale : l.capturedGen ≠ s'.generation) :
    (UPP.runU UPP.initU
      ([.open_ dA nA, .cleanup, .open_ dB nB] ++ suffix)).installed ≠ some dA ∧
    (UPP.loadResolve s' l).installed = s'.installed ∧
    (UPP.loadResolve s' l).totalPages = s'.totalPages ∧
    (UPP.loadResolve s' l).loading = s'.loading ∧
    l.docId ∈ (UPP.loadResolve s' l).destroyedDocs ∧
    (UPP.renderPageU (UPP.runU UPP.initU
        ([.open_ dA nA, .cleanup, .open_ dB nB] ++ suffix)) k = .ok (d, q) →
      d ≠ dA) := by
  have hres : UPP.loadResolve s' l = { s' with
      pending := s'.pending.filter (fun x => x ≠ l),
      destroyedDocs := s'.destroyedDocs ++ [l.docId] } := by
    unfold UPP.loadResolve
    rw [if_pos hl, if_pos hstale]
  have hmid : UPP.runU UPP.initU [.open_ dA nA, .cleanup, .open_ dB nB] =
      { generation := 3,
        installed := none,
        totalPages := 0,
        loading := true,
        error := none,
        pending := [⟨1, dA, nA⟩, ⟨3, dB, nB⟩],
        destroyedDocs := [] } := by
    rfl
  have hinst : (UPP.runU UPP.initU
      ([.open_ dA nA, .cleanup, .open_ dB nB] ++ suffix)).installed
        ≠ some dA := by
    rw [show UPP.runU UPP.initU ([.open_ dA nA, .cleanup, .open_ dB nB] ++ suffix)
        = UPP.runU (UPP.runU UPP.initU [.open_ dA nA, .cleanup, .open_ dB nB])
          suffix from List.foldl_append _ _ _ _]
    rw [hmid]
    apply UPP.staleFor_run dA _ suffix hsuffix
    · simp
    · intro l' hl' hd
      simp only [List.mem_cons, List.mem_singleton] at hl'
      rcases hl' with h | h | h
      · rw [h]
        simp
      · rw [h] at hd
        simp at hd
        exact absurd hd.symm hAB
      · simp at h
  refine ⟨hinst, ?_, ?_, ?_, ?_, ?_⟩
  · rw [hres]
  · rw [hres]
  · rw [hres]
  · rw [hres]
    simp
  · intro hrender
    have hgot := UPP.renderPageU_ok_installed _ _ _ _ hrender
    intro hcon
    rw [hcon] at hgot
    exact hinst hgot

/-- C7 witness: a concrete stale load resolving is a destroy-only
no-op. -/
theorem C7_witness :
    (UPP.loadResolve UPP.staleStateEx ⟨1, 1, 6⟩).installed =
      UPP.staleStateEx.installed ∧
    (1 : Nat) ∈ (UPP.loadResolve UPP.staleStateEx ⟨1, 1, 6⟩).destroyedDocs := by
  have h := C7_generation_safety 1 6 2 8 [] UPP.staleStateEx ⟨1, 1, 6⟩ 1 2 1
    (by decide) (by intro e he; simp at he) (by decide) (by decide)
  exact ⟨h.2.1, h.2.2.2.2.1⟩
